import Mathlib

/-!
Verification development for the torrent-to-drive repository: a shallow
embedding of the job orchestration engine described by the design document
and of the frontend formatting helpers, together with theorems settling the
specified properties.
-/

namespace TorrentToDrive

/-! ### Frontend formatting helpers (src/frontend/src/components/TorrentPage.jsx) -/

/-- The unit suffix array of formatBytes (TorrentPage.jsx line 7). -/
def byteUnits : List String := ["B", "KB", "MB", "GB", "TB"]

/-- Renders a count of hundredths as the decimal numeral JavaScript prints for
the number hundredths / 100: trailing fractional zeros are dropped, a whole
number prints with no decimal point. -/
def renderHundredths (h : ℕ) : String :=
  let whole := h / 100
  let frac := h % 100
  if frac = 0 then toString whole
  else if frac % 10 = 0 then toString whole ++ "." ++ toString (frac / 10)
  else if frac < 10 then toString whole ++ ".0" ++ toString frac
  else toString whole ++ "." ++ toString frac

/-- `Math.round(bytes / Math.pow 1024 i * 100)` of TorrentPage.jsx line 9 in
exact arithmetic: bytes / 1024 ^ i in hundredths, rounded half-up. -/
def roundHundredths (bytes i : ℕ) : ℕ :=
  (200 * bytes + 1024 ^ i) / (2 * 1024 ^ i)

/-- formatBytes (TorrentPage.jsx lines 4-10), in exact arithmetic:
`Math.floor(Math.log bytes / Math.log 1024)` is the floor logarithm
`Nat.log 1024 bytes`, and indexing `sizes[i]` past the end of the array
yields JavaScript `undefined`, which string concatenation renders as
"undefined". -/
def formatBytes (bytes : ℕ) : String :=
  if bytes = 0 then "0 B"
  else
    let i := Nat.log 1024 bytes
    renderHundredths (roundHundredths bytes i) ++ " " ++ byteUnits.getD i "undefined"

/-- formatTime (TorrentPage.jsx lines 16-22), with `null` / `undefined`
modelled as `none` and JavaScript numbers as exact rationals. The guard
`!seconds || seconds < 0` is `seconds = 0 ∨ seconds < 0`; in the remaining
positive case the JavaScript `%` operator equals subtracting the floored
multiple of the divisor. -/
def formatTime : Option ℚ → String
  | none => "N/A"
  | some seconds =>
    if seconds = 0 ∨ seconds < 0 then "N/A"
    else
      toString ⌊seconds / 3600⌋ ++ "h " ++
        toString ⌊(seconds - 3600 * (⌊seconds / 3600⌋ : ℚ)) / 60⌋ ++ "m " ++
        toString ⌊seconds - 60 * (⌊seconds / 60⌋ : ℚ)⌋ ++ "s"

/-! ### Chunked upload transfer loop (spec section 4.3) -/

/-- Modelled from the spec: the Upload Coordinator's chunked transfer loop of
section 4.3 (the backend engine is not under src/). Each iteration sends a
chunk that starts at the last acknowledged offset and carries at most
`chunkSize` bytes; the adapter acknowledges `offset + min chunkSize (size -
offset)`. Returns the list of chunk-call offsets and the final acknowledged
offset; the `fuel` argument bounds the number of iterations. -/
def sendChunks (chunkSize size : ℕ) : ℕ → ℕ → List ℕ × ℕ
  | 0, offset => ([], offset)
  | fuel + 1, offset =>
    if offset < size then
      let next := offset + min chunkSize (size - offset)
      let r := sendChunks chunkSize size fuel next
      (offset :: r.1, r.2)
    else ([], offset)

/-- Modelled from the spec: a whole-file failure-free upload; `size` units of
fuel always suffice because every chunk advances by at least one byte. -/
def uploadFile (chunkSize size : ℕ) : List ℕ × ℕ :=
  sendChunks chunkSize size size 0

/-! ### Job orchestration engine (spec sections 3-5)

The backend engine itself is not under src/ (only the frontend, its API
client, and deployment files are), so the engine is modelled from the spec:
the state machine of section 4.1, the two bounded FIFO coordinator pools of
sections 4.2-4.3, the upload retry policy of section 4.3, and the error
taxonomy of section 7. -/

/-- Modelled from the spec: the nine job lifecycle states of section 4.1.
The engine has no further state (in particular none named 'completed'). -/
inductive JobState
  | queued | metadata_pending | metadata_ready | downloading | paused
  | download_complete | uploading | uploaded | error
  deriving DecidableEq

/-- Modelled from the spec: operational failure causes (section 7). -/
inductive ErrorCause
  | MetadataUnavailable | TransferUnresponsive | UploadFailed
  deriving DecidableEq

/-- Modelled from the spec: caller-misuse errors, reported synchronously and
never mutating persisted state (section 7). -/
inductive ApiError
  | InvalidSource | InvalidSelection | InvalidState | NotFound
  deriving DecidableEq

/-- Modelled from the spec: one entry of a job's ordered file list. -/
structure FileEntry where
  index : ℕ
  path : String
  size : ℕ
  deriving DecidableEq

/-- Modelled from the spec: per-job upload working state — cumulative bytes
acknowledged and the retry count for the current chunk (section 3). -/
structure UploadSession where
  bytesAcknowledged : ℕ
  retryCount : ℕ
  deriving DecidableEq

/-- Modelled from the spec: the persisted Job record (section 3). -/
structure Job where
  sourceIdentifier : String
  name : String
  totalSize : ℕ
  files : List FileEntry
  selectedIndices : List ℕ
  state : JobState
  errorCause : Option ErrorCause
  session : Option UploadSession
  remoteFileRef : Option String
  deriving DecidableEq

/-- Modelled from the spec: a coordinator's slot pool — the adapter-active
job ids, the FIFO waiting queue, and the configured slot count. -/
structure Pool where
  active : List ℕ
  waiting : List ℕ
  limit : ℕ
  deriving DecidableEq

/-- Modelled from the spec: the whole engine state — the Job Store (a
key-value map of job records), the two independent coordinator pools, the
next fresh job id, and the configuration values consumed by the core. -/
structure Sys where
  jobs : ℕ → Option Job
  dl : Pool
  ul : Pool
  nextId : ℕ
  chunkSize : ℕ
  maxRetries : ℕ

/-- Modelled from the spec (section 4.2): admission — immediate start while
the active count is under the configured limit, otherwise the job joins the
back of the FIFO waiting queue. -/
def Pool.enroll (p : Pool) (id : ℕ) : Pool :=
  if p.active.length < p.limit then { p with active := p.active ++ [id] }
  else { p with waiting := p.waiting ++ [id] }

/-- Modelled from the spec (section 4.2): releasing an active slot; when a
slot frees and jobs are waiting, the earliest-enqueued waiting job (the head
of the FIFO queue) is admitted. -/
def Pool.release (p : Pool) (id : ℕ) : Pool :=
  let a := p.active.erase id
  match p.waiting with
  | [] => { p with active := a }
  | w :: rest =>
    if a.length < p.limit then { active := a ++ [w], waiting := rest, limit := p.limit }
    else { p with active := a, waiting := w :: rest }

/-- Modelled from the spec (section 4.2): deletion removes the job from the
pool — releasing its slot if active, else dropping it from the queue. -/
def Pool.remove (p : Pool) (id : ℕ) : Pool :=
  if id ∈ p.active then p.release id
  else { p with waiting := p.waiting.erase id }

/-- Modelled from the spec: terminal states — uploaded (the sole success
terminal) and error. -/
def JobState.isTerminal : JobState → Bool
  | .uploaded | .error => true
  | _ => false

/-- Modelled from the spec (section 4.1): the allowed lifecycle edges, with
error reachable from every non-terminal state. -/
def edge : JobState → JobState → Bool
  | .queued, .metadata_pending => true
  | .metadata_pending, .metadata_ready => true
  | .metadata_ready, .downloading => true
  | .downloading, .paused => true
  | .paused, .downloading => true
  | .downloading, .download_complete => true
  | .download_complete, .uploading => true
  | .uploading, .uploaded => true
  | a, .error => !a.isTerminal
  | _, _ => false

/-- Modelled from the spec: syntactic validity of a source identifier (a
magnet-style URI, section 4.1) — the identifier starts with "magnet:". -/
def validSource (s : String) : Bool :=
  match s.data with
  | 'm' :: 'a' :: 'g' :: 'n' :: 'e' :: 't' :: ':' :: _ => true
  | _ => false

/-- Modelled from the spec: a freshly submitted job in state queued. -/
def initJob (src : String) : Job :=
  { sourceIdentifier := src, name := "", totalSize := 0, files := [],
    selectedIndices := [], state := .queued, errorCause := none,
    session := none, remoteFileRef := none }

/-- Write one job record in the Job Store. -/
def Sys.setJob (sys : Sys) (id : ℕ) (j : Job) : Sys :=
  { sys with jobs := fun k => if k = id then some j else sys.jobs k }

/-- Remove one job record from the Job Store. -/
def Sys.dropJob (sys : Sys) (id : ℕ) : Sys :=
  { sys with jobs := fun k => if k = id then none else sys.jobs k }

/-- Modelled from the spec: total size of the files chosen by the job's
selection. -/
def Job.selectedBytes (j : Job) : ℕ :=
  (j.files.filter (fun f => f.index ∈ j.selectedIndices)).foldl
    (fun acc f => acc + f.size) 0

/-- Modelled from the spec: a freshly configured engine with empty Job Store
and idle pools. -/
def initSys (dlLimit ulLimit chunk retries : ℕ) : Sys :=
  { jobs := fun _ => none, dl := ⟨[], [], dlLimit⟩, ul := ⟨[], [], ulLimit⟩,
    nextId := 0, chunkSize := chunk, maxRetries := retries }

/-- Modelled from the spec: metadata returned by the Transfer Adapter. -/
structure TorrentMetadata where
  name : String
  totalSize : ℕ
  files : List FileEntry
  deriving DecidableEq

/-- Modelled from the spec: outcome of an asynchronous metadata fetch. -/
inductive MetaResult
  | success (meta : TorrentMetadata)
  | failure
  deriving DecidableEq

/-- Modelled from the spec: the Upload Adapter's answer to one sendChunk
call — success, a retryable transient failure, or a permanent failure
(section 6). -/
inductive ChunkOutcome
  | ok
  | retryable
  | permanent
  deriving DecidableEq

/-- Modelled from the spec (section 4.1): submit — creates a queued job under
a fresh id, or fails InvalidSource on a syntactically invalid identifier. -/
def submitOp (sys : Sys) (src : String) : Sys × Option ApiError :=
  if validSource src then
    ({ sys.setJob sys.nextId (initJob src) with nextId := sys.nextId + 1 }, none)
  else (sys, some .InvalidSource)

/-- Modelled from the spec (section 4.1): fetchMetadata — from queued it
transitions to metadata_pending and invokes the Transfer Adapter (the final
Bool records whether the adapter was invoked); from metadata_ready it is a
no-op returning the cached file list without re-invoking the adapter. -/
def fetchMetadataOp (sys : Sys) (id : ℕ) :
    Sys × Option ApiError × Option (List FileEntry) × Bool :=
  match sys.jobs id with
  | none => (sys, some .NotFound, none, false)
  | some j =>
    match j.state with
    | .queued => (sys.setJob id { j with state := .metadata_pending }, none, none, true)
    | .metadata_ready => (sys, none, some j.files, false)
    | _ => (sys, some .InvalidState, none, false)

/-- Modelled from the spec (section 4.1): arrival of the Transfer Adapter's
metadata answer for a job in metadata_pending — success moves to
metadata_ready and persists the file list, failure moves to error with cause
MetadataUnavailable. -/
def metaResultOp (sys : Sys) (id : ℕ) (r : MetaResult) : Sys :=
  match sys.jobs id with
  | none => sys
  | some j =>
    if j.state = .metadata_pending then
      match r with
      | .success meta =>
        sys.setJob id { j with state := .metadata_ready, name := meta.name,
                               totalSize := meta.totalSize, files := meta.files }
      | .failure =>
        sys.setJob id { j with state := .error, errorCause := some .MetadataUnavailable }
    else sys

/-- Modelled from the spec (section 4.1): startDownload — requires state
metadata_ready (InvalidState otherwise), validates the selection as
non-empty and within the range of the job's file list (InvalidSelection
otherwise), records the selection, transitions to downloading, and hands the
job to the Download Coordinator. Failures leave the engine unchanged. -/
def startDownloadOp (sys : Sys) (id : ℕ) (sel : List ℕ) : Sys × Option ApiError :=
  match sys.jobs id with
  | none => (sys, some .NotFound)
  | some j =>
    if j.state = .metadata_ready then
      if sel ≠ [] ∧ sel.all (fun i => i < j.files.length) then
        let sys1 := sys.setJob id { j with selectedIndices := sel, state := .downloading }
        ({ sys1 with dl := sys1.dl.enroll id }, none)
      else (sys, some .InvalidSelection)
    else (sys, some .InvalidState)

/-- Modelled from the spec (section 4.1): pause — valid only from
downloading; the paused job keeps its slot. -/
def pauseOp (sys : Sys) (id : ℕ) : Sys × Option ApiError :=
  match sys.jobs id with
  | none => (sys, some .NotFound)
  | some j =>
    if j.state = .downloading then (sys.setJob id { j with state := .paused }, none)
    else (sys, some .InvalidState)

/-- Modelled from the spec (section 4.1): resume — valid only from paused. -/
def resumeOp (sys : Sys) (id : ℕ) : Sys × Option ApiError :=
  match sys.jobs id with
  | none => (sys, some .NotFound)
  | some j =>
    if j.state = .paused then (sys.setJob id { j with state := .downloading }, none)
    else (sys, some .InvalidState)

/-- Modelled from the spec (section 4.1): delete — permitted from any state;
cancels work in both coordinators and removes the Job Store record. The
purge flag only instructs the external adapters. -/
def deleteOp (sys : Sys) (id : ℕ) (_purge : Bool) : Sys × Option ApiError :=
  match sys.jobs id with
  | none => (sys, some .NotFound)
  | some _ =>
    let sys1 := sys.dropJob id
    ({ sys1 with dl := sys1.dl.remove id, ul := sys1.ul.remove id }, none)

/-- Modelled from the spec (sections 4.1-4.2): completion detection — a
downloading job moves to download_complete and its download slot is
released, admitting the next waiting job. -/
def downloadCompleteOp (sys : Sys) (id : ℕ) : Sys :=
  match sys.jobs id with
  | none => sys
  | some j =>
    if j.state = .downloading then
      let sys1 := sys.setJob id { j with state := .download_complete }
      { sys1 with dl := sys1.dl.release id }
    else sys

/-- Modelled from the spec (sections 4.1, 4.3): hand-off to the Upload
Coordinator — download_complete moves to uploading with a fresh upload
session and the job enters the upload pool. -/
def startUploadOp (sys : Sys) (id : ℕ) : Sys :=
  match sys.jobs id with
  | none => sys
  | some j =>
    if j.state = .download_complete then
      let sys1 := sys.setJob id { j with state := .uploading, session := some ⟨0, 0⟩ }
      { sys1 with ul := sys1.ul.enroll id }
    else sys

/-- Modelled from the spec (section 4.3): one chunk outcome for an
adapter-active upload. Success advances the acknowledged offset by at most
chunkSize and resets the retry count, finishing the job once all selected
bytes are acknowledged; a transient failure retries the same chunk until the
configured maximum retry count is exceeded, which fails the job with cause
UploadFailed; a permanent failure fails the job immediately. -/
def uploadChunkOp (sys : Sys) (id : ℕ) (outcome : ChunkOutcome) : Sys :=
  match sys.jobs id with
  | none => sys
  | some j =>
    match j.session with
    | none => sys
    | some s =>
      if j.state = .uploading ∧ id ∈ sys.ul.active then
        match outcome with
        | .ok =>
          let target := j.selectedBytes
          let acked := s.bytesAcknowledged + min sys.chunkSize (target - s.bytesAcknowledged)
          if target ≤ acked then
            let sys1 := sys.setJob id
              { j with state := .uploaded, session := none,
                       remoteFileRef := some "remote" }
            { sys1 with ul := sys1.ul.release id }
          else sys.setJob id { j with session := some ⟨acked, 0⟩ }
        | .retryable =>
          if s.retryCount < sys.maxRetries then
            sys.setJob id { j with session := some ⟨s.bytesAcknowledged, s.retryCount + 1⟩ }
          else
            let sys1 := sys.setJob id
              { j with state := .error, errorCause := some .UploadFailed, session := none }
            { sys1 with ul := sys1.ul.release id }
        | .permanent =>
          let sys1 := sys.setJob id
            { j with state := .error, errorCause := some .UploadFailed, session := none }
          { sys1 with ul := sys1.ul.release id }
      else sys

/-- Modelled from the spec (section 4.1): onFailure — a non-terminal job
moves to error with the recorded cause and is withdrawn from both pools; a
job already terminal ignores further failure callbacks. -/
def failOp (sys : Sys) (id : ℕ) (cause : ErrorCause) : Sys :=
  match sys.jobs id with
  | none => sys
  | some j =>
    if j.state.isTerminal then sys
    else
      let sys1 := sys.setJob id
        { j with state := .error, errorCause := some cause, session := none }
      { sys1 with dl := sys1.dl.remove id, ul := sys1.ul.remove id }

/-- Modelled from the spec: the events driving the engine — caller
operations of section 4.1 and internal coordinator and adapter callbacks,
with adapter answers supplied as event payloads (the adapters are external
collaborators). -/
inductive Event
  | submit (src : String)
  | fetchMeta (id : ℕ)
  | metaArrived (id : ℕ) (r : MetaResult)
  | startDownload (id : ℕ) (sel : List ℕ)
  | pause (id : ℕ)
  | resume (id : ℕ)
  | delete (id : ℕ) (purgeData : Bool)
  | downloadComplete (id : ℕ)
  | startUpload (id : ℕ)
  | uploadChunk (id : ℕ) (outcome : ChunkOutcome)
  | fail (id : ℕ) (cause : ErrorCause)

/-- Modelled from the spec: one serialized engine step, with the synchronous
caller-visible error, if any. -/
def step (sys : Sys) : Event → Sys × Option ApiError
  | .submit src => submitOp sys src
  | .fetchMeta id => ((fetchMetadataOp sys id).1, (fetchMetadataOp sys id).2.1)
  | .metaArrived id r => (metaResultOp sys id r, none)
  | .startDownload id sel => startDownloadOp sys id sel
  | .pause id => pauseOp sys id
  | .resume id => resumeOp sys id
  | .delete id p => deleteOp sys id p
  | .downloadComplete id => (downloadCompleteOp sys id, none)
  | .startUpload id => (startUploadOp sys id, none)
  | .uploadChunk id o => (uploadChunkOp sys id o, none)
  | .fail id c => (failOp sys id c, none)

/-- Modelled from the spec: engine states reachable from a freshly
configured engine by any event sequence. -/
inductive Reachable : Sys → Prop
  | init (dlLimit ulLimit chunk retries : ℕ) :
      Reachable (initSys dlLimit ulLimit chunk retries)
  | next {sys : Sys} (e : Event) : Reachable sys → Reachable (step sys e).1

/-- Modelled from the spec: drive one job's chunk uploads through a sequence
of adapter outcomes. -/
def runChunks (sys : Sys) (id : ℕ) : List ChunkOutcome → Sys
  | [] => sys
  | o :: os => runChunks (uploadChunkOp sys id o) id os

/-! ### Concrete scenario values used to instantiate the theorems -/

/-- A one-file torrent file list entry of ten bytes. -/
def fileA : FileEntry := ⟨0, "a.bin", 10⟩

/-- A job whose metadata has resolved. -/
def readyJob : Job :=
  { sourceIdentifier := "magnet:x", name := "x", totalSize := 10,
    files := [fileA], selectedIndices := [], state := .metadata_ready,
    errorCause := none, session := none, remoteFileRef := none }

/-- An engine holding one metadata_ready job. -/
def sysReady : Sys :=
  { jobs := fun k => if k = 0 then some readyJob else none,
    dl := ⟨[], [], 2⟩, ul := ⟨[], [], 2⟩, nextId := 1,
    chunkSize := 10, maxRetries := 3 }

/-- A job actively downloading its selected file. -/
def dlJob : Job :=
  { readyJob with selectedIndices := [0], state := .downloading }

/-- An engine whose single download slot is held by job 0 while jobs 1 and 2
wait in FIFO order. -/
def sysBusy : Sys :=
  { jobs := fun k => if k = 0 then some dlJob else none,
    dl := ⟨[0], [1, 2], 1⟩, ul := ⟨[], [], 1⟩, nextId := 3,
    chunkSize := 10, maxRetries := 3 }

/-- A job uploading its selected file with a fresh upload session. -/
def upJob : Job :=
  { readyJob with selectedIndices := [0], state := .uploading,
                  session := some ⟨0, 0⟩ }

/-- An engine whose upload slot is held by the uploading job 0. -/
def sysUp : Sys :=
  { jobs := fun k => if k = 0 then some upJob else none,
    dl := ⟨[], [], 1⟩, ul := ⟨[0], [], 1⟩, nextId := 1,
    chunkSize := 10, maxRetries := 2 }

/-- A job that failed with a recorded cause. -/
def errJob : Job :=
  { readyJob with state := .error, errorCause := some .UploadFailed }

/-- An engine holding one errored job. -/
def sysErr : Sys :=
  { jobs := fun k => if k = 0 then some errJob else none,
    dl := ⟨[], [], 2⟩, ul := ⟨[], [], 2⟩, nextId := 1,
    chunkSize := 10, maxRetries := 3 }

/-- The engine after one valid submission to a fresh configuration. -/
def sysSubmitted : Sys := (step (initSys 2 2 10 3) (.submit "magnet:a")).1

/-! ### C9 — formatBytes -/

/-- C9: formatBytes 0 is "0 B"; for every byte count b with 1 ≤ b < 1024^5
the output is b / 1024^i rounded half-up to two decimal places (the two
inequalities pin the rounded hundredths to within half a hundredth of the
exact quotient) followed by the unit at index i = floor(log_1024 b) of
['B','KB','MB','GB','TB'], where i is characterised by
1024^i ≤ b < 1024^(i+1); for b ≥ 1024^5 the unit index runs past the array,
so the rendered unit is 'undefined'. -/
theorem formatBytes_spec :
    formatBytes 0 = "0 B"
    ∧ (∀ b : ℕ, 1 ≤ b → b < 1024 ^ 5 →
        ∃ i : ℕ, ∃ hi : i < byteUnits.length,
          1024 ^ i ≤ b ∧ b < 1024 ^ (i + 1)
          ∧ formatBytes b =
              renderHundredths (roundHundredths b i) ++ " " ++ byteUnits.get ⟨i, hi⟩
          ∧ 2 * 1024 ^ i * roundHundredths b i ≤ 200 * b + 1024 ^ i
          ∧ 200 * b ≤ 2 * 1024 ^ i * roundHundredths b i + 1024 ^ i)
    ∧ (∀ b : ℕ, 1024 ^ 5 ≤ b →
        formatBytes b =
          renderHundredths (roundHundredths b (Nat.log 1024 b)) ++ " " ++ "undefined") := by
  refine ⟨rfl, ?_, ?_⟩
  · intro b hb1 hb5
    have hb0 : b ≠ 0 := by omega
    have hlog5 : Nat.log 1024 b < 5 := Nat.log_lt_of_lt_pow hb0 hb5
    have hlen : Nat.log 1024 b < byteUnits.length := by
      simpa [byteUnits] using hlog5
    refine ⟨Nat.log 1024 b, hlen, Nat.pow_log_le_self 1024 hb0,
      Nat.lt_pow_succ_log_self (by norm_num) b, ?_, ?_, ?_⟩
    · simp only [formatBytes, if_neg hb0]
      rw [List.getD_eq_getElem _ _ hlen, List.get_eq_getElem]
    · have hd := Nat.div_add_mod (200 * b + 1024 ^ Nat.log 1024 b)
        (2 * 1024 ^ Nat.log 1024 b)
      simp only [roundHundredths]
      omega
    · have hp : 0 < 2 * 1024 ^ Nat.log 1024 b := by positivity
      have hd := Nat.div_add_mod (200 * b + 1024 ^ Nat.log 1024 b)
        (2 * 1024 ^ Nat.log 1024 b)
      have hm := Nat.mod_lt (200 * b + 1024 ^ Nat.log 1024 b) hp
      simp only [roundHundredths]
      omega
  · intro b hb
    have hb0 : b ≠ 0 := by positivity
    have hlog : 5 ≤ Nat.log 1024 b := Nat.le_log_of_pow_le (by norm_num) hb
    have hlen : byteUnits.length ≤ Nat.log 1024 b := by
      simpa [byteUnits] using hlog
    simp only [formatBytes, if_neg hb0]
    rw [List.getD_eq_default _ _ hlen]

/-- Witness for C9 at b = 1536 (1.5 KB). -/
theorem formatBytes_spec_witness :
    ∃ i : ℕ, ∃ hi : i < byteUnits.length,
      1024 ^ i ≤ 1536 ∧ 1536 < 1024 ^ (i + 1)
      ∧ formatBytes 1536 =
          renderHundredths (roundHundredths 1536 i) ++ " " ++ byteUnits.get ⟨i, hi⟩
      ∧ 2 * 1024 ^ i * roundHundredths 1536 i ≤ 200 * 1536 + 1024 ^ i
      ∧ 200 * 1536 ≤ 2 * 1024 ^ i * roundHundredths 1536 i + 1024 ^ i :=
  formatBytes_spec.2.1 1536 (by norm_num) (by norm_num)

/-! ### C10 — formatTime -/

/-- C10: formatTime renders 'N/A' for a missing, zero, or negative input (in
particular an ETA of exactly 0 shows 'N/A', not '0h 0m 0s'); for every
positive input it renders floor(s/3600) hours, floor((s mod 3600)/60)
minutes and floor(s mod 60) seconds, where the modulus is subtraction of the
floored multiple, so the minute and second fields are always below 60. -/
theorem formatTime_spec :
    formatTime none = "N/A"
    ∧ formatTime (some 0) = "N/A"
    ∧ (∀ q : ℚ, q < 0 → formatTime (some q) = "N/A")
    ∧ (∀ q : ℚ, 0 < q →
        formatTime (some q) =
          toString ⌊q / 3600⌋ ++ "h " ++
            toString ⌊(q - 3600 * (⌊q / 3600⌋ : ℚ)) / 60⌋ ++ "m " ++
            toString ⌊q - 60 * (⌊q / 60⌋ : ℚ)⌋ ++ "s"
        ∧ 0 ≤ ⌊q / 3600⌋
        ∧ 0 ≤ ⌊(q - 3600 * (⌊q / 3600⌋ : ℚ)) / 60⌋
        ∧ ⌊(q - 3600 * (⌊q / 3600⌋ : ℚ)) / 60⌋ < 60
        ∧ 0 ≤ ⌊q - 60 * (⌊q / 60⌋ : ℚ)⌋
        ∧ ⌊q - 60 * (⌊q / 60⌋ : ℚ)⌋ < 60) := by
  refine ⟨rfl, by simp [formatTime], ?_, ?_⟩
  · intro q hq
    simp only [formatTime]
    rw [if_pos (Or.inr hq)]
  · intro q hq
    have hcond : ¬(q = 0 ∨ q < 0) := by
      push_neg
      exact ⟨ne_of_gt hq, hq.le⟩
    have em : q - 3600 * (⌊q / 3600⌋ : ℚ) = 3600 * Int.fract (q / 3600) := by
      rw [Int.fract]
      ring
    have es : q - 60 * (⌊q / 60⌋ : ℚ) = 60 * Int.fract (q / 60) := by
      rw [Int.fract]
      ring
    have hmf0 := Int.fract_nonneg (q / 3600)
    have hmf1 := Int.fract_lt_one (q / 3600)
    have hsf0 := Int.fract_nonneg (q / 60)
    have hsf1 := Int.fract_lt_one (q / 60)
    refine ⟨?_, ?_, ?_, ?_, ?_, ?_⟩
    · simp only [formatTime]
      rw [if_neg hcond]
    · exact Int.floor_nonneg.mpr (by positivity)
    · rw [em]
      exact Int.floor_nonneg.mpr (by positivity)
    · rw [em]
      have : 3600 * Int.fract (q / 3600) / 60 = 60 * Int.fract (q / 3600) := by ring
      rw [this]
      refine Int.floor_lt.mpr ?_
      push_cast
      linarith
    · rw [es]
      exact Int.floor_nonneg.mpr (by positivity)
    · rw [es]
      refine Int.floor_lt.mpr ?_
      push_cast
      linarith

/-- Witness for C10 at 3661 seconds (1h 1m 1s). -/
theorem formatTime_spec_witness :
    formatTime (some 3661) =
      toString ⌊(3661 : ℚ) / 3600⌋ ++ "h " ++
        toString ⌊((3661 : ℚ) - 3600 * (⌊(3661 : ℚ) / 3600⌋ : ℚ)) / 60⌋ ++ "m " ++
        toString ⌊(3661 : ℚ) - 60 * (⌊(3661 : ℚ) / 60⌋ : ℚ)⌋ ++ "s"
    ∧ 0 ≤ ⌊(3661 : ℚ) / 3600⌋
    ∧ 0 ≤ ⌊((3661 : ℚ) - 3600 * (⌊(3661 : ℚ) / 3600⌋ : ℚ)) / 60⌋
    ∧ ⌊((3661 : ℚ) - 3600 * (⌊(3661 : ℚ) / 3600⌋ : ℚ)) / 60⌋ < 60
    ∧ 0 ≤ ⌊(3661 : ℚ) - 60 * (⌊(3661 : ℚ) / 60⌋ : ℚ)⌋
    ∧ ⌊(3661 : ℚ) - 60 * (⌊(3661 : ℚ) / 60⌋ : ℚ)⌋ < 60 :=
  formatTime_spec.2.2.2 3661 (by norm_num)

/-! ### C4 — chunked transfer offsets -/

/-- The trace of chunk offsets followed by the final acknowledged offset
always starts with the initial offset. -/
theorem sendChunks_cons (c s : ℕ) :
    ∀ fuel o, ∃ t : List ℕ,
      (sendChunks c s fuel o).1 ++ [(sendChunks c s fuel o).2] = o :: t := by
  intro fuel o
  cases fuel with
  | zero => exact ⟨[], rfl⟩
  | succ n =>
    by_cases h : o < s
    · refine ⟨(sendChunks c s n (o + min c (s - o))).1 ++
        [(sendChunks c s n (o + min c (s - o))).2], ?_⟩
      simp [sendChunks, h]
    · exact ⟨[], by simp [sendChunks, h]⟩

/-- With a positive chunk size and enough fuel, the transfer loop finishes
with every byte acknowledged. -/
theorem sendChunks_final (c s : ℕ) (hc : 0 < c) :
    ∀ fuel o, o ≤ s → s - o ≤ fuel → (sendChunks c s fuel o).2 = s := by
  intro fuel
  induction fuel with
  | zero =>
    intro o ho hf
    have : o = s := by omega
    simp [sendChunks, this]
  | succ n ih =>
    intro o ho hf
    by_cases h : o < s
    · have hmin : 1 ≤ min c (s - o) := by omega
      have h1 : o + min c (s - o) ≤ s := by omega
      have h2 : s - (o + min c (s - o)) ≤ n := by omega
      simp only [sendChunks, if_pos h]
      exact ih (o + min c (s - o)) h1 h2
    · have : o = s := by omega
      simp [sendChunks, this]

/-- Every chunk starts at the previously acknowledged offset and advances by
`min c (s - offset)`, which is at most the configured chunk size. -/
theorem sendChunks_chain (c s : ℕ) :
    ∀ fuel o, List.Chain' (fun a b => b = a + min c (s - a) ∧ b ≤ a + c)
      ((sendChunks c s fuel o).1 ++ [(sendChunks c s fuel o).2]) := by
  intro fuel
  induction fuel with
  | zero => intro o; simp [sendChunks]
  | succ n ih =>
    intro o
    by_cases h : o < s
    · simp only [sendChunks, if_pos h]
      obtain ⟨t, ht⟩ := sendChunks_cons c s n (o + min c (s - o))
      have hchain := ih (o + min c (s - o))
      rw [ht] at hchain
      rw [List.cons_append, ht, List.chain'_cons]
      exact ⟨⟨rfl, by omega⟩, hchain⟩
    · simp [sendChunks, h]

/-- C4: uploading a 25-byte file with chunk size 10 issues exactly 3
sendChunk calls, at offsets 0, 10 and 20 in that order, and the final
acknowledged offset is 25; in general every run acknowledges all bytes, and
each chunk starts at the last acknowledged offset and carries at most the
configured chunk size. -/
theorem chunked_transfer_spec :
    (uploadFile 10 25).1 = [0, 10, 20]
    ∧ (uploadFile 10 25).1.length = 3
    ∧ (uploadFile 10 25).2 = 25
    ∧ (∀ c s : ℕ, 0 < c →
        (uploadFile c s).2 = s
        ∧ List.Chain' (fun a b => b = a + min c (s - a) ∧ b ≤ a + c)
            ((uploadFile c s).1 ++ [(uploadFile c s).2])) := by
  refine ⟨by decide, by decide, by decide, ?_⟩
  intro c s hc
  exact ⟨sendChunks_final c s hc s 0 (Nat.zero_le s) (by omega),
    sendChunks_chain c s s 0⟩

/-- Witness for C4's general clause at chunk size 1, file size 2. -/
theorem chunked_transfer_spec_witness :
    (uploadFile 1 2).2 = 2
    ∧ List.Chain' (fun a b => b = a + min 1 (2 - a) ∧ b ≤ a + 1)
        ((uploadFile 1 2).1 ++ [(uploadFile 1 2).2]) :=
  chunked_transfer_spec.2.2.2 1 2 (by decide)

/-! ### Basic facts about the Job Store update helpers -/

@[simp]
theorem setJob_jobs (sys : Sys) (id : ℕ) (j : Job) (k : ℕ) :
    (sys.setJob id j).jobs k = if k = id then some j else sys.jobs k := rfl

@[simp]
theorem setJob_dl (sys : Sys) (id : ℕ) (j : Job) : (sys.setJob id j).dl = sys.dl := rfl

@[simp]
theorem setJob_ul (sys : Sys) (id : ℕ) (j : Job) : (sys.setJob id j).ul = sys.ul := rfl

@[simp]
theorem setJob_nextId (sys : Sys) (id : ℕ) (j : Job) :
    (sys.setJob id j).nextId = sys.nextId := rfl

@[simp]
theorem setJob_chunkSize (sys : Sys) (id : ℕ) (j : Job) :
    (sys.setJob id j).chunkSize = sys.chunkSize := rfl

@[simp]
theorem setJob_maxRetries (sys : Sys) (id : ℕ) (j : Job) :
    (sys.setJob id j).maxRetries = sys.maxRetries := rfl

@[simp]
theorem dropJob_jobs (sys : Sys) (id : ℕ) (k : ℕ) :
    (sys.dropJob id).jobs k = if k = id then none else sys.jobs k := rfl

/-! ### C5 — startDownload validation -/

/-- C5: startDownload succeeds exactly on a metadata_ready job with a
non-empty in-range selection, recording the selection and moving to
downloading; an empty or out-of-range selection fails InvalidSelection and
any other state fails InvalidState, in both cases leaving the engine — in
particular the persisted job record — unchanged. -/
theorem startDownload_validation (sys : Sys) (id : ℕ) (sel : List ℕ) (j : Job)
    (hj : sys.jobs id = some j) :
    (j.state ≠ .metadata_ready →
      step sys (.startDownload id sel) = (sys, some .InvalidState))
    ∧ (j.state = .metadata_ready →
        (sel = [] ∨ ∃ i ∈ sel, ¬ i < j.files.length) →
        step sys (.startDownload id sel) = (sys, some .InvalidSelection))
    ∧ (j.state = .metadata_ready → sel ≠ [] → (∀ i ∈ sel, i < j.files.length) →
        ((step sys (.startDownload id sel)).2 = none
          ∧ (step sys (.startDownload id sel)).1.jobs id =
              some { j with selectedIndices := sel, state := .downloading })) := by
  refine ⟨?_, ?_, ?_⟩
  · intro hne
    simp only [step, startDownloadOp, hj]
    rw [if_neg hne]
  · intro hst hbad
    simp only [step, startDownloadOp, hj]
    rw [if_pos hst]
    have hcond : ¬(sel ≠ [] ∧ (sel.all (fun i => i < j.files.length) = true)) := by
      rcases hbad with h | ⟨i, hi, hlt⟩
      · simp [h]
      · intro hcon
        have hall := hcon.2
        simp only [List.all_eq_true, decide_eq_true_eq] at hall
        exact hlt (hall i hi)
    rw [if_neg hcond]
  · intro hst hne hall
    have hcond : sel ≠ [] ∧ (sel.all (fun i => i < j.files.length) = true) := by
      refine ⟨hne, ?_⟩
      simp only [List.all_eq_true, decide_eq_true_eq]
      exact hall
    simp only [step, startDownloadOp, hj]
    rw [if_pos hst, if_pos hcond]
    simp

/-- Witness for C5: a valid selection on the metadata_ready job of
sysReady. -/
theorem startDownload_validation_witness :
    (step sysReady (.startDownload 0 [0])).2 = none
    ∧ (step sysReady (.startDownload 0 [0])).1.jobs 0 =
        some { readyJob with selectedIndices := [0], state := .downloading } :=
  (startDownload_validation sysReady 0 [0] readyJob rfl).2.2 rfl (by decide)
    (by decide)

/-! ### C7 — fetchMetadata idempotence -/

/-- C7: on a job already in metadata_ready, fetchMetadata is a no-op that
returns the cached file list without invoking the Transfer Adapter (the
final Bool), so a second invocation returns the identical file list and
again does not call the adapter. -/
theorem fetchMetadata_idempotent (sys : Sys) (id : ℕ) (j : Job)
    (hj : sys.jobs id = some j) (hs : j.state = .metadata_ready) :
    fetchMetadataOp sys id = (sys, none, some j.files, false)
    ∧ fetchMetadataOp (fetchMetadataOp sys id).1 id = fetchMetadataOp sys id := by
  have h1 : fetchMetadataOp sys id = (sys, none, some j.files, false) := by
    simp [fetchMetadataOp, hj, hs]
  exact ⟨h1, by rw [h1]; exact h1⟩

/-- Witness for C7 on sysReady. -/
theorem fetchMetadata_idempotent_witness :
    fetchMetadataOp sysReady 0 = (sysReady, none, some readyJob.files, false)
    ∧ fetchMetadataOp (fetchMetadataOp sysReady 0).1 0 = fetchMetadataOp sysReady 0 :=
  fetchMetadata_idempotent sysReady 0 readyJob rfl rfl

/-! ### C8 — operations on errored jobs -/

/-- C8: for a job in state error, delete succeeds while pause and resume
fail InvalidState without mutating the engine; in general pause succeeds
exactly from downloading and resume exactly from paused. -/
theorem error_state_operations (sys : Sys) (id : ℕ) (j : Job) (purge : Bool)
    (hj : sys.jobs id = some j) :
    (j.state = .error →
      ((step sys (.delete id purge)).2 = none
       ∧ step sys (.pause id) = (sys, some .InvalidState)
       ∧ step sys (.resume id) = (sys, some .InvalidState)))
    ∧ ((step sys (.pause id)).2 = none ↔ j.state = .downloading)
    ∧ ((step sys (.resume id)).2 = none ↔ j.state = .paused) := by
  refine ⟨?_, ?_, ?_⟩
  · intro hs
    refine ⟨by simp [step, deleteOp, hj], ?_, ?_⟩
    · simp only [step, pauseOp, hj, hs]
      rw [if_neg (by simp)]
    · simp only [step, resumeOp, hj, hs]
      rw [if_neg (by simp)]
  · by_cases h : j.state = .downloading <;> simp [step, pauseOp, hj, h]
  · by_cases h : j.state = .paused <;> simp [step, resumeOp, hj, h]

/-- Witness for C8 on the errored job of sysErr. -/
theorem error_state_operations_witness :
    (step sysErr (.delete 0 true)).2 = none
    ∧ step sysErr (.pause 0) = (sysErr, some .InvalidState)
    ∧ step sysErr (.resume 0) = (sysErr, some .InvalidState) :=
  (error_state_operations sysErr 0 errJob true rfl).1 rfl

/-! ### C6 — FIFO admission -/

/-- Releasing an occupied slot while jobs wait admits exactly the head of
the FIFO waiting queue. -/
theorem pool_release_head (p : Pool) (id w : ℕ) (rest : List ℕ)
    (hact : id ∈ p.active) (hbound : p.active.length ≤ p.limit)
    (hwait : p.waiting = w :: rest) :
    p.release id = ⟨p.active.erase id ++ [w], rest, p.limit⟩ := by
  obtain ⟨pa, pw, pl⟩ := p
  simp only at hact hbound hwait
  subst hwait
  have hlen := List.length_erase_add_one hact
  have hlt : (pa.erase id).length < pl := by omega
  simp [Pool.release, hlt]

/-- Removing a job that holds a slot is a release. -/
theorem pool_remove_active (p : Pool) (id : ℕ) (hact : id ∈ p.active) :
    p.remove id = p.release id := by
  simp [Pool.remove, hact]

/-- C6: FIFO admission in the Download Coordinator. Whenever an active
transfer reaches a terminal outcome — completion, failure, or deletion — the
job admitted into the freed slot is the head of the waiting queue, i.e. the
earliest-enqueued waiting job, and the rest of the queue keeps its order;
and a job that must wait is appended at the back of the queue, so a job
enqueued earlier is admitted no later than one enqueued after it. -/
theorem fifo_admission (sys : Sys) (id w : ℕ) (rest : List ℕ) (j : Job)
    (c : ErrorCause)
    (hj : sys.jobs id = some j)
    (hact : id ∈ sys.dl.active)
    (hbound : sys.dl.active.length ≤ sys.dl.limit)
    (hwait : sys.dl.waiting = w :: rest) :
    (j.state = .downloading →
      (step sys (.downloadComplete id)).1.dl =
        ⟨sys.dl.active.erase id ++ [w], rest, sys.dl.limit⟩)
    ∧ (j.state.isTerminal = false →
      (step sys (.fail id c)).1.dl =
        ⟨sys.dl.active.erase id ++ [w], rest, sys.dl.limit⟩)
    ∧ ((step sys (.delete id true)).1.dl =
        ⟨sys.dl.active.erase id ++ [w], rest, sys.dl.limit⟩)
    ∧ (∀ id2 : ℕ, ∀ sel : List ℕ, ¬ sys.dl.active.length < sys.dl.limit →
        (step sys (.startDownload id2 sel)).1.dl.waiting = sys.dl.waiting
        ∨ (step sys (.startDownload id2 sel)).1.dl.waiting = sys.dl.waiting ++ [id2]) := by
  refine ⟨?_, ?_, ?_, ?_⟩
  · intro hs
    simp only [step, downloadCompleteOp, hj]
    rw [if_pos hs]
    show (sys.setJob id _).dl.release id = _
    rw [setJob_dl]
    exact pool_release_head sys.dl id w rest hact hbound hwait
  · intro hs
    simp only [step, failOp, hj]
    rw [if_neg (by simp [hs])]
    show (sys.setJob id _).dl.remove id = _
    rw [setJob_dl, pool_remove_active sys.dl id hact]
    exact pool_release_head sys.dl id w rest hact hbound hwait
  · simp only [step, deleteOp, hj]
    show (sys.dropJob id).dl.remove id = _
    have hdl : (sys.dropJob id).dl = sys.dl := rfl
    rw [hdl, pool_remove_active sys.dl id hact]
    exact pool_release_head sys.dl id w rest hact hbound hwait
  · intro id2 sel hfull
    simp only [step, startDownloadOp]
    cases hj2 : sys.jobs id2 with
    | none => exact Or.inl rfl
    | some j2 =>
      dsimp only
      by_cases h1 : j2.state = .metadata_ready
      · rw [if_pos h1]
        by_cases h2 : sel ≠ [] ∧ (sel.all (fun i => i < j2.files.length) = true)
        · rw [if_pos h2]
          right
          show ((sys.setJob id2 _).dl.enroll id2).waiting = _
          rw [setJob_dl]
          simp [Pool.enroll, hfull]
        · rw [if_neg h2]
          exact Or.inl rfl
      · rw [if_neg h1]
        exact Or.inl rfl

/-- Witness for C6: completing the single active download of sysBusy admits
the earliest waiter, job 1, leaving job 2 queued. -/
theorem fifo_admission_witness :
    (step sysBusy (.downloadComplete 0)).1.dl =
      ⟨sysBusy.dl.active.erase 0 ++ [1], [2], sysBusy.dl.limit⟩ :=
  (fifo_admission sysBusy 0 1 [2] dlJob .UploadFailed rfl (by decide) (by decide)
    rfl).1 rfl

/-! ### C2 — bounded concurrency -/

/-- Admission never pushes the active count past the slot limit. -/
theorem pool_enroll_bound (p : Pool) (id : ℕ) (h : p.active.length ≤ p.limit) :
    (p.enroll id).active.length ≤ (p.enroll id).limit := by
  simp only [Pool.enroll]
  split_ifs with hlt
  · simp only [List.length_append, List.length_cons, List.length_nil]
    omega
  · exact h

/-- Releasing a slot (and admitting at most one waiter) keeps the active
count within the slot limit. -/
theorem pool_release_bound (p : Pool) (id : ℕ) (h : p.active.length ≤ p.limit) :
    (p.release id).active.length ≤ (p.release id).limit := by
  obtain ⟨pa, pw, pl⟩ := p
  simp only at h
  have he : (pa.erase id).length ≤ pa.length := (List.erase_sublist id pa).length_le
  cases pw with
  | nil => simpa [Pool.release] using le_trans he h
  | cons w rest =>
    by_cases hlt : (pa.erase id).length < pl
    · simp only [Pool.release, if_pos hlt, List.length_append, List.length_cons,
        List.length_nil]
      omega
    · simpa [Pool.release, if_neg hlt] using le_trans he h

/-- Withdrawing a job keeps the active count within the slot limit. -/
theorem pool_remove_bound (p : Pool) (id : ℕ) (h : p.active.length ≤ p.limit) :
    (p.remove id).active.length ≤ (p.remove id).limit := by
  by_cases hm : id ∈ p.active
  · rw [pool_remove_active p id hm]
    exact pool_release_bound p id h
  · simpa [Pool.remove, hm] using h

/-- One engine step preserves both concurrency bounds. -/
theorem step_pools_bound (sys : Sys) (e : Event)
    (hdl : sys.dl.active.length ≤ sys.dl.limit)
    (hul : sys.ul.active.length ≤ sys.ul.limit) :
    (step sys e).1.dl.active.length ≤ (step sys e).1.dl.limit
    ∧ (step sys e).1.ul.active.length ≤ (step sys e).1.ul.limit := by
  cases e with
  | submit src =>
    simp only [step, submitOp]
    split_ifs <;> exact ⟨hdl, hul⟩
  | fetchMeta id =>
    simp only [step, fetchMetadataOp]
    cases hj : sys.jobs id with
    | none => exact ⟨hdl, hul⟩
    | some j =>
      obtain ⟨a1, a2, a3, a4, a5, st, a7, a8, a9⟩ := j
      cases st <;> exact ⟨hdl, hul⟩
  | metaArrived id r =>
    simp only [step, metaResultOp]
    cases hj : sys.jobs id with
    | none => exact ⟨hdl, hul⟩
    | some j =>
      dsimp only
      split_ifs with h1
      · cases r <;> exact ⟨hdl, hul⟩
      · exact ⟨hdl, hul⟩
  | startDownload id sel =>
    simp only [step, startDownloadOp]
    cases hj : sys.jobs id with
    | none => exact ⟨hdl, hul⟩
    | some j =>
      dsimp only
      split_ifs with h1 h2
      · exact ⟨pool_enroll_bound sys.dl id hdl, hul⟩
      · exact ⟨hdl, hul⟩
      · exact ⟨hdl, hul⟩
  | pause id =>
    simp only [step, pauseOp]
    cases hj : sys.jobs id with
    | none => exact ⟨hdl, hul⟩
    | some j =>
      dsimp only
      split_ifs <;> exact ⟨hdl, hul⟩
  | resume id =>
    simp only [step, resumeOp]
    cases hj : sys.jobs id with
    | none => exact ⟨hdl, hul⟩
    | some j =>
      dsimp only
      split_ifs <;> exact ⟨hdl, hul⟩
  | delete id p =>
    simp only [step, deleteOp]
    cases hj : sys.jobs id with
    | none => exact ⟨hdl, hul⟩
    | some j =>
      exact ⟨pool_remove_bound sys.dl id hdl, pool_remove_bound sys.ul id hul⟩
  | downloadComplete id =>
    simp only [step, downloadCompleteOp]
    cases hj : sys.jobs id with
    | none => exact ⟨hdl, hul⟩
    | some j =>
      dsimp only
      split_ifs with h1
      · exact ⟨pool_release_bound sys.dl id hdl, hul⟩
      · exact ⟨hdl, hul⟩
  | startUpload id =>
    simp only [step, startUploadOp]
    cases hj : sys.jobs id with
    | none => exact ⟨hdl, hul⟩
    | some j =>
      dsimp only
      split_ifs with h1
      · exact ⟨hdl, pool_enroll_bound sys.ul id hul⟩
      · exact ⟨hdl, hul⟩
  | uploadChunk id o =>
    simp only [step, uploadChunkOp]
    cases hj : sys.jobs id with
    | none => exact ⟨hdl, hul⟩
    | some j =>
      dsimp only
      cases hs : j.session with
      | none => exact ⟨hdl, hul⟩
      | some s =>
        dsimp only
        by_cases h1 : j.state = .uploading ∧ id ∈ sys.ul.active
        · rw [if_pos h1]
          cases o with
          | ok =>
            dsimp only
            split_ifs with h2
            · exact ⟨hdl, pool_release_bound sys.ul id hul⟩
            · exact ⟨hdl, hul⟩
          | retryable =>
            dsimp only
            split_ifs with h2
            · exact ⟨hdl, hul⟩
            · exact ⟨hdl, pool_release_bound sys.ul id hul⟩
          | permanent => exact ⟨hdl, pool_release_bound sys.ul id hul⟩
        · rw [if_neg h1]
          exact ⟨hdl, hul⟩
  | fail id c =>
    simp only [step, failOp]
    cases hj : sys.jobs id with
    | none => exact ⟨hdl, hul⟩
    | some j =>
      dsimp only
      split_ifs with h1
      · exact ⟨hdl, hul⟩
      · exact ⟨pool_remove_bound sys.dl id hdl, pool_remove_bound sys.ul id hul⟩

/-- C2: in every reachable engine state, at most maxConcurrentDownloads jobs
hold adapter-active download slots and at most maxConcurrentUploads jobs
hold adapter-active upload slots; the two pools are bounded by their own
independent limits. -/
theorem concurrency_bounds (sys : Sys) (h : Reachable sys) :
    sys.dl.active.length ≤ sys.dl.limit
    ∧ sys.ul.active.length ≤ sys.ul.limit := by
  induction h with
  | init d u c m => exact ⟨Nat.zero_le d, Nat.zero_le u⟩
  | next e hr ih => exact step_pools_bound _ e ih.1 ih.2

/-- Witness for C2 on a freshly configured engine. -/
theorem concurrency_bounds_witness :
    (initSys 2 2 10 3).dl.active.length ≤ (initSys 2 2 10 3).dl.limit
    ∧ (initSys 2 2 10 3).ul.active.length ≤ (initSys 2 2 10 3).ul.limit :=
  concurrency_bounds (initSys 2 2 10 3) (Reachable.init 2 2 10 3)

/-! ### C1 — state transitions follow the lifecycle graph -/

/-- Error is an allowed edge out of every non-terminal state. -/
theorem edge_error (s : JobState) (h : s.isTerminal = false) :
    edge s .error = true := by
  cases s <;> simp_all [edge, JobState.isTerminal]

/-- Looking up a job after a store write either hits the written record or
falls through to the previous store. -/
theorem setJob_lookup (sys : Sys) (id0 id : ℕ) (jn j' : Job)
    (h : (sys.setJob id0 jn).jobs id = some j') :
    (id = id0 ∧ j' = jn) ∨ (¬ id = id0 ∧ sys.jobs id = some j') := by
  by_cases hid : id = id0
  · rw [setJob_jobs, if_pos hid] at h
    exact Or.inl ⟨hid, (Option.some.inj h).symm⟩
  · rw [setJob_jobs, if_neg hid] at h
    exact Or.inr ⟨hid, h⟩

/-- Ids at or above the fresh-id watermark stay unused across any step. -/
theorem step_fresh (sys : Sys) (e : Event)
    (hf : ∀ k, sys.nextId ≤ k → sys.jobs k = none) :
    ∀ k, (step sys e).1.nextId ≤ k → (step sys e).1.jobs k = none := by
  have hne : ∀ (id k : ℕ) (j : Job), sys.jobs id = some j →
      sys.nextId ≤ k → ¬ k = id := by
    intro id k j hj hk h
    subst h
    rw [hf k hk] at hj
    cases hj
  cases e with
  | submit src =>
    simp only [step, submitOp]
    split_ifs with hv
    · intro k hk
      have hk2 : sys.nextId + 1 ≤ k := hk
      dsimp only [Sys.setJob]
      rw [if_neg (by omega : ¬ k = sys.nextId)]
      exact hf k (by omega)
    · exact fun k hk => hf k hk
  | fetchMeta id =>
    simp only [step, fetchMetadataOp]
    cases hj : sys.jobs id with
    | none => exact fun k hk => hf k hk
    | some j =>
      obtain ⟨a1, a2, a3, a4, a5, st, a7, a8, a9⟩ := j
      cases st <;>
        first
          | exact fun k hk => hf k hk
          | (intro k hk
             dsimp only [Sys.setJob]
             rw [if_neg (hne id k _ hj hk)]
             exact hf k hk)
  | metaArrived id r =>
    simp only [step, metaResultOp]
    cases hj : sys.jobs id with
    | none => exact fun k hk => hf k hk
    | some j =>
      dsimp only
      split_ifs with h1
      · cases r with
        | success meta =>
          intro k hk
          dsimp only [Sys.setJob]
          rw [if_neg (hne id k _ hj hk)]
          exact hf k hk
        | failure =>
          intro k hk
          dsimp only [Sys.setJob]
          rw [if_neg (hne id k _ hj hk)]
          exact hf k hk
      · exact fun k hk => hf k hk
  | startDownload id sel =>
    simp only [step, startDownloadOp]
    cases hj : sys.jobs id with
    | none => exact fun k hk => hf k hk
    | some j =>
      dsimp only
      split_ifs with h1 h2
      · intro k hk
        dsimp only [Sys.setJob]
        rw [if_neg (hne id k _ hj hk)]
        exact hf k hk
      · exact fun k hk => hf k hk
      · exact fun k hk => hf k hk
  | pause id =>
    simp only [step, pauseOp]
    cases hj : sys.jobs id with
    | none => exact fun k hk => hf k hk
    | some j =>
      dsimp only
      split_ifs with h1
      · intro k hk
        dsimp only [Sys.setJob]
        rw [if_neg (hne id k _ hj hk)]
        exact hf k hk
      · exact fun k hk => hf k hk
  | resume id =>
    simp only [step, resumeOp]
    cases hj : sys.jobs id with
    | none => exact fun k hk => hf k hk
    | some j =>
      dsimp only
      split_ifs with h1
      · intro k hk
        dsimp only [Sys.setJob]
        rw [if_neg (hne id k _ hj hk)]
        exact hf k hk
      · exact fun k hk => hf k hk
  | delete id p =>
    simp only [step, deleteOp]
    cases hj : sys.jobs id with
    | none => exact fun k hk => hf k hk
    | some j =>
      intro k hk
      dsimp only [Sys.dropJob]
      by_cases hkid : k = id
      · rw [if_pos hkid]
      · rw [if_neg hkid]
        exact hf k hk
  | downloadComplete id =>
    simp only [step, downloadCompleteOp]
    cases hj : sys.jobs id with
    | none => exact fun k hk => hf k hk
    | some j =>
      dsimp only
      split_ifs with h1
      · intro k hk
        dsimp only [Sys.setJob]
        rw [if_neg (hne id k _ hj hk)]
        exact hf k hk
      · exact fun k hk => hf k hk
  | startUpload id =>
    simp only [step, startUploadOp]
    cases hj : sys.jobs id with
    | none => exact fun k hk => hf k hk
    | some j =>
      dsimp only
      split_ifs with h1
      · intro k hk
        dsimp only [Sys.setJob]
        rw [if_neg (hne id k _ hj hk)]
        exact hf k hk
      · exact fun k hk => hf k hk
  | uploadChunk id o =>
    simp only [step, uploadChunkOp]
    cases hj : sys.jobs id with
    | none => exact fun k hk => hf k hk
    | some j =>
      dsimp only
      cases hsess : j.session with
      | none => exact fun k hk => hf k hk
      | some s =>
        dsimp only
        by_cases h1 : j.state = .uploading ∧ id ∈ sys.ul.active
        · rw [if_pos h1]
          cases o with
          | ok =>
            dsimp only
            split_ifs with h2
            · intro k hk
              dsimp only [Sys.setJob]
              rw [if_neg (hne id k _ hj hk)]
              exact hf k hk
            · intro k hk
              dsimp only [Sys.setJob]
              rw [if_neg (hne id k _ hj hk)]
              exact hf k hk
          | retryable =>
            dsimp only
            split_ifs with h2
            · intro k hk
              dsimp only [Sys.setJob]
              rw [if_neg (hne id k _ hj hk)]
              exact hf k hk
            · intro k hk
              dsimp only [Sys.setJob]
              rw [if_neg (hne id k _ hj hk)]
              exact hf k hk
          | permanent =>
            intro k hk
            dsimp only [Sys.setJob]
            rw [if_neg (hne id k _ hj hk)]
            exact hf k hk
        · rw [if_neg h1]
          exact fun k hk => hf k hk
  | fail id c =>
    simp only [step, failOp]
    cases hj : sys.jobs id with
    | none => exact fun k hk => hf k hk
    | some j =>
      dsimp only
      split_ifs with h1
      · exact fun k hk => hf k hk
      · intro k hk
        dsimp only [Sys.setJob]
        rw [if_neg (hne id k _ hj hk)]
        exact hf k hk

/-- In every reachable engine state, ids at or above the fresh-id watermark
are unused — submissions therefore never overwrite an existing record. -/
theorem reachable_fresh (sys : Sys) (h : Reachable sys) :
    ∀ k, sys.nextId ≤ k → sys.jobs k = none := by
  induction h with
  | init d u c m => intro k _; rfl
  | next e hr ih => exact step_fresh _ e ih

/-- Two lookups of the same store cell name identical records, so the state
is unchanged. -/
theorem lookup_state_eq {A : Option Job} {j j' : Job}
    (h1 : A = some j) (h2 : A = some j') : j'.state = j.state := by
  rw [h1] at h2
  cases Option.some.inj h2
  rfl

/-- C1: along every reachable execution, one engine step either leaves a
job's state unchanged or moves it along an edge of the section 4.1 lifecycle
graph queued → metadata_pending → metadata_ready → downloading ⇄ paused →
download_complete → uploading → uploaded; error is an allowed edge out of
every non-terminal state, uploaded and error are the only terminal states
(uploaded the sole success terminal), and every value a job's state field
can hold is one of the nine named states — in particular no state named
'completed' exists in the engine. -/
theorem state_transitions_follow_lifecycle :
    (∀ sys : Sys, Reachable sys → ∀ e : Event, ∀ id : ℕ, ∀ j j' : Job,
      sys.jobs id = some j → (step sys e).1.jobs id = some j' →
      j'.state = j.state ∨ edge j.state j'.state = true)
    ∧ (∀ s : JobState, s.isTerminal = false → edge s .error = true)
    ∧ (∀ s : JobState, s.isTerminal = true → s = .uploaded ∨ s = .error)
    ∧ (∀ s : JobState,
        s = .queued ∨ s = .metadata_pending ∨ s = .metadata_ready
        ∨ s = .downloading ∨ s = .paused ∨ s = .download_complete
        ∨ s = .uploading ∨ s = .uploaded ∨ s = .error) := by
  refine ⟨?_, fun s h => edge_error s h, ?_, ?_⟩
  · intro sys hr e id j j' hj
    cases e with
    | submit src =>
      simp only [step, submitOp]
      split_ifs with hv
      · intro hj'
        rcases setJob_lookup sys sys.nextId id _ j' hj' with ⟨hid, rfl⟩ | ⟨hid, h3⟩
        · subst hid
          rw [reachable_fresh sys hr sys.nextId le_rfl] at hj
          cases hj
        · exact Or.inl (lookup_state_eq hj h3)
      · intro hj'
        exact Or.inl (lookup_state_eq hj hj')
    | fetchMeta id0 =>
      simp only [step, fetchMetadataOp]
      cases hjid : sys.jobs id0 with
      | none => intro hj'; exact Or.inl (lookup_state_eq hj hj')
      | some j0 =>
        obtain ⟨a1, a2, a3, a4, a5, st, a7, a8, a9⟩ := j0
        cases st with
        | queued =>
          intro hj'
          rcases setJob_lookup sys id0 id _ j' hj' with ⟨hid, rfl⟩ | ⟨hid, h3⟩
          · subst hid
            obtain rfl := Option.some.inj (hj.symm.trans hjid)
            exact Or.inr rfl
          · exact Or.inl (lookup_state_eq hj h3)
        | metadata_pending => intro hj'; exact Or.inl (lookup_state_eq hj hj')
        | metadata_ready => intro hj'; exact Or.inl (lookup_state_eq hj hj')
        | downloading => intro hj'; exact Or.inl (lookup_state_eq hj hj')
        | paused => intro hj'; exact Or.inl (lookup_state_eq hj hj')
        | download_complete => intro hj'; exact Or.inl (lookup_state_eq hj hj')
        | uploading => intro hj'; exact Or.inl (lookup_state_eq hj hj')
        | uploaded => intro hj'; exact Or.inl (lookup_state_eq hj hj')
        | error => intro hj'; exact Or.inl (lookup_state_eq hj hj')
    | metaArrived id0 r =>
      simp only [step, metaResultOp]
      cases hjid : sys.jobs id0 with
      | none => intro hj'; exact Or.inl (lookup_state_eq hj hj')
      | some j0 =>
        dsimp only
        split_ifs with hst
        · cases r with
          | success meta =>
            intro hj'
            rcases setJob_lookup sys id0 id _ j' hj' with ⟨hid, rfl⟩ | ⟨hid, h3⟩
            · subst hid
              obtain rfl := Option.some.inj (hj.symm.trans hjid)
              right
              show edge j.state .metadata_ready = true
              rw [hst]
              rfl
            · exact Or.inl (lookup_state_eq hj h3)
          | failure =>
            intro hj'
            rcases setJob_lookup sys id0 id _ j' hj' with ⟨hid, rfl⟩ | ⟨hid, h3⟩
            · subst hid
              obtain rfl := Option.some.inj (hj.symm.trans hjid)
              right
              show edge j.state .error = true
              rw [hst]
              rfl
            · exact Or.inl (lookup_state_eq hj h3)
        · intro hj'
          exact Or.inl (lookup_state_eq hj hj')
    | startDownload id0 sel =>
      simp only [step, startDownloadOp]
      cases hjid : sys.jobs id0 with
      | none => intro hj'; exact Or.inl (lookup_state_eq hj hj')
      | some j0 =>
        dsimp only
        split_ifs with hst hsel
        · intro hj'
          rcases setJob_lookup sys id0 id _ j' hj' with ⟨hid, rfl⟩ | ⟨hid, h3⟩
          · subst hid
            obtain rfl := Option.some.inj (hj.symm.trans hjid)
            right
            show edge j.state .downloading = true
            rw [hst]
            rfl
          · exact Or.inl (lookup_state_eq hj h3)
        · intro hj'
          exact Or.inl (lookup_state_eq hj hj')
        · intro hj'
          exact Or.inl (lookup_state_eq hj hj')
    | pause id0 =>
      simp only [step, pauseOp]
      cases hjid : sys.jobs id0 with
      | none => intro hj'; exact Or.inl (lookup_state_eq hj hj')
      | some j0 =>
        dsimp only
        split_ifs with hst
        · intro hj'
          rcases setJob_lookup sys id0 id _ j' hj' with ⟨hid, rfl⟩ | ⟨hid, h3⟩
          · subst hid
            obtain rfl := Option.some.inj (hj.symm.trans hjid)
            right
            show edge j.state .paused = true
            rw [hst]
            rfl
          · exact Or.inl (lookup_state_eq hj h3)
        · intro hj'
          exact Or.inl (lookup_state_eq hj hj')
    | resume id0 =>
      simp only [step, resumeOp]
      cases hjid : sys.jobs id0 with
      | none => intro hj'; exact Or.inl (lookup_state_eq hj hj')
      | some j0 =>
        dsimp only
        split_ifs with hst
        · intro hj'
          rcases setJob_lookup sys id0 id _ j' hj' with ⟨hid, rfl⟩ | ⟨hid, h3⟩
          · subst hid
            obtain rfl := Option.some.inj (hj.symm.trans hjid)
            right
            show edge j.state .downloading = true
            rw [hst]
            rfl
          · exact Or.inl (lookup_state_eq hj h3)
        · intro hj'
          exact Or.inl (lookup_state_eq hj hj')
    | delete id0 p =>
      simp only [step, deleteOp]
      cases hjid : sys.jobs id0 with
      | none => intro hj'; exact Or.inl (lookup_state_eq hj hj')
      | some j0 =>
        intro hj'
        have h2 : (sys.dropJob id0).jobs id = some j' := hj'
        rw [dropJob_jobs] at h2
        by_cases hid : id = id0
        · rw [if_pos hid] at h2
          cases h2
        · rw [if_neg hid] at h2
          exact Or.inl (lookup_state_eq hj h2)
    | downloadComplete id0 =>
      simp only [step, downloadCompleteOp]
      cases hjid : sys.jobs id0 with
      | none => intro hj'; exact Or.inl (lookup_state_eq hj hj')
      | some j0 =>
        dsimp only
        split_ifs with hst
        · intro hj'
          rcases setJob_lookup sys id0 id _ j' hj' with ⟨hid, rfl⟩ | ⟨hid, h3⟩
          · subst hid
            obtain rfl := Option.some.inj (hj.symm.trans hjid)
            right
            show edge j.state .download_complete = true
            rw [hst]
            rfl
          · exact Or.inl (lookup_state_eq hj h3)
        · intro hj'
          exact Or.inl (lookup_state_eq hj hj')
    | startUpload id0 =>
      simp only [step, startUploadOp]
      cases hjid : sys.jobs id0 with
      | none => intro hj'; exact Or.inl (lookup_state_eq hj hj')
      | some j0 =>
        dsimp only
        split_ifs with hst
        · intro hj'
          rcases setJob_lookup sys id0 id _ j' hj' with ⟨hid, rfl⟩ | ⟨hid, h3⟩
          · subst hid
            obtain rfl := Option.some.inj (hj.symm.trans hjid)
            right
            show edge j.state .uploading = true
            rw [hst]
            rfl
          · exact Or.inl (lookup_state_eq hj h3)
        · intro hj'
          exact Or.inl (lookup_state_eq hj hj')
    | uploadChunk id0 o =>
      simp only [step, uploadChunkOp]
      cases hjid : sys.jobs id0 with
      | none => intro hj'; exact Or.inl (lookup_state_eq hj hj')
      | some j0 =>
        dsimp only
        cases hsess : j0.session with
        | none => intro hj'; exact Or.inl (lookup_state_eq hj hj')
        | some s =>
          dsimp only
          by_cases h1 : j0.state = .uploading ∧ id0 ∈ sys.ul.active
          · rw [if_pos h1]
            cases o with
            | ok =>
              dsimp only
              split_ifs with h2
              · intro hj'
                rcases setJob_lookup sys id0 id _ j' hj' with ⟨hid, rfl⟩ | ⟨hid, h3⟩
                · subst hid
                  obtain rfl := Option.some.inj (hj.symm.trans hjid)
                  right
                  show edge j.state .uploaded = true
                  rw [h1.1]
                  rfl
                · exact Or.inl (lookup_state_eq hj h3)
              · intro hj'
                rcases setJob_lookup sys id0 id _ j' hj' with ⟨hid, rfl⟩ | ⟨hid, h3⟩
                · subst hid
                  obtain rfl := Option.some.inj (hj.symm.trans hjid)
                  exact Or.inl rfl
                · exact Or.inl (lookup_state_eq hj h3)
            | retryable =>
              dsimp only
              split_ifs with h2
              · intro hj'
                rcases setJob_lookup sys id0 id _ j' hj' with ⟨hid, rfl⟩ | ⟨hid, h3⟩
                · subst hid
                  obtain rfl := Option.some.inj (hj.symm.trans hjid)
                  exact Or.inl rfl
                · exact Or.inl (lookup_state_eq hj h3)
              · intro hj'
                rcases setJob_lookup sys id0 id _ j' hj' with ⟨hid, rfl⟩ | ⟨hid, h3⟩
                · subst hid
                  obtain rfl := Option.some.inj (hj.symm.trans hjid)
                  right
                  show edge j.state .error = true
                  rw [h1.1]
                  rfl
                · exact Or.inl (lookup_state_eq hj h3)
            | permanent =>
              intro hj'
              rcases setJob_lookup sys id0 id _ j' hj' with ⟨hid, rfl⟩ | ⟨hid, h3⟩
              · subst hid
                obtain rfl := Option.some.inj (hj.symm.trans hjid)
                right
                show edge j.state .error = true
                rw [h1.1]
                rfl
              · exact Or.inl (lookup_state_eq hj h3)
          · rw [if_neg h1]
            intro hj'
            exact Or.inl (lookup_state_eq hj hj')
    | fail id0 c =>
      simp only [step, failOp]
      cases hjid : sys.jobs id0 with
      | none => intro hj'; exact Or.inl (lookup_state_eq hj hj')
      | some j0 =>
        dsimp only
        split_ifs with hterm
        · intro hj'
          exact Or.inl (lookup_state_eq hj hj')
        · intro hj'
          rcases setJob_lookup sys id0 id _ j' hj' with ⟨hid, rfl⟩ | ⟨hid, h3⟩
          · subst hid
            obtain rfl := Option.some.inj (hj.symm.trans hjid)
            right
            show edge j.state .error = true
            exact edge_error _ (by simpa using hterm)
          · exact Or.inl (lookup_state_eq hj h3)
  · intro s h
    cases s <;> simp_all [JobState.isTerminal]
  · intro s
    cases s <;> simp

/-- Witness for C1: a pause request on the freshly submitted (queued) job of
sysSubmitted leaves its state unchanged or moves along an edge. -/
theorem state_transitions_follow_lifecycle_witness :
    (initJob "magnet:a").state = (initJob "magnet:a").state
    ∨ edge (initJob "magnet:a").state (initJob "magnet:a").state = true :=
  state_transitions_follow_lifecycle.1 sysSubmitted
    (Reachable.next (.submit "magnet:a") (Reachable.init 2 2 10 3)) (.pause 0) 0
    (initJob "magnet:a") (initJob "magnet:a") rfl rfl

/-! ### C3 — upload retry policy -/

/-- Re-writing a job's session with its current value is the identity. -/
theorem job_set_session_self (j : Job) (s : UploadSession)
    (h : j.session = some s) : { j with session := some s } = j := by
  cases j
  simp only at h
  rw [h]

/-- Writing back the record a cell already holds is the identity. -/
theorem setJob_self (sys : Sys) (id : ℕ) (j : Job) (h : sys.jobs id = some j) :
    sys.setJob id j = sys := by
  obtain ⟨jo, d, u, n, c, m⟩ := sys
  simp only [Sys.setJob]
  congr 1
  funext k
  by_cases hk : k = id
  · subst hk
    simp only at h
    rw [if_pos rfl, h]
  · rw [if_neg hk]

/-- Two successive writes to the same cell collapse to the second. -/
theorem setJob_setJob (sys : Sys) (id : ℕ) (j1 j2 : Job) :
    (sys.setJob id j1).setJob id j2 = sys.setJob id j2 := by
  obtain ⟨jo, d, u, n, c, m⟩ := sys
  simp only [Sys.setJob]
  congr 1
  funext k
  by_cases hk : k = id
  · rw [if_pos hk, if_pos hk]
  · rw [if_neg hk, if_neg hk, if_neg hk]

/-- A transient chunk failure below the retry limit re-queues the same chunk,
incrementing only the session's retry count. -/
theorem uploadChunk_retryable_eq (sys : Sys) (id : ℕ) (j : Job) (a r : ℕ)
    (hj : sys.jobs id = some j) (hs : j.state = .uploading)
    (hsess : j.session = some ⟨a, r⟩) (hact : id ∈ sys.ul.active)
    (hr : r < sys.maxRetries) :
    uploadChunkOp sys id .retryable =
      sys.setJob id { j with session := some ⟨a, r + 1⟩ } := by
  simp only [uploadChunkOp, hj, hsess]
  rw [if_pos ⟨hs, hact⟩, if_pos hr]

/-- A transient chunk failure at the retry limit fails the job with cause
UploadFailed and discards the session. -/
theorem uploadChunk_retryable_fail (sys : Sys) (id : ℕ) (j : Job) (a r : ℕ)
    (hj : sys.jobs id = some j) (hs : j.state = .uploading)
    (hsess : j.session = some ⟨a, r⟩) (hact : id ∈ sys.ul.active)
    (hr : ¬ r < sys.maxRetries) :
    (uploadChunkOp sys id .retryable).jobs id =
      some { j with state := .error, errorCause := some .UploadFailed,
                    session := none } := by
  simp only [uploadChunkOp, hj, hsess]
  rw [if_pos ⟨hs, hact⟩, if_neg hr]
  simp

/-- A permanent chunk failure fails the job immediately, whatever the retry
count. -/
theorem uploadChunk_permanent_fail (sys : Sys) (id : ℕ) (j : Job) (a r : ℕ)
    (hj : sys.jobs id = some j) (hs : j.state = .uploading)
    (hsess : j.session = some ⟨a, r⟩) (hact : id ∈ sys.ul.active) :
    (uploadChunkOp sys id .permanent).jobs id =
      some { j with state := .error, errorCause := some .UploadFailed,
                    session := none } := by
  simp only [uploadChunkOp, hj, hsess]
  rw [if_pos ⟨hs, hact⟩]
  simp

/-- A successful chunk that covers all remaining selected bytes finishes the
job: it moves to uploaded and the session is discarded. -/
theorem uploadChunk_ok_complete (sys : Sys) (id : ℕ) (j : Job) (a r : ℕ)
    (hj : sys.jobs id = some j) (hs : j.state = .uploading)
    (hsess : j.session = some ⟨a, r⟩) (hact : id ∈ sys.ul.active)
    (hlast : j.selectedBytes ≤ a + sys.chunkSize) :
    (uploadChunkOp sys id .ok).jobs id =
      some { j with state := .uploaded, session := none,
                    remoteFileRef := some "remote" } := by
  simp only [uploadChunkOp, hj, hsess]
  rw [if_pos ⟨hs, hact⟩]
  split_ifs with h2
  · simp
  · exfalso
    omega

/-- Chunk outcomes for a job without an upload session are ignored. -/
theorem uploadChunk_no_session (sys : Sys) (id : ℕ) (j : Job) (o : ChunkOutcome)
    (hj : sys.jobs id = some j) (hsess : j.session = none) :
    uploadChunkOp sys id o = sys := by
  simp [uploadChunkOp, hj, hsess]

/-- Running a concatenation of outcome sequences runs them in order. -/
theorem runChunks_append (sys : Sys) (id : ℕ) (l1 l2 : List ChunkOutcome) :
    runChunks sys id (l1 ++ l2) = runChunks (runChunks sys id l1) id l2 := by
  induction l1 generalizing sys with
  | nil => rfl
  | cons o os ih =>
    simp only [List.cons_append, runChunks]
    exact ih (uploadChunkOp sys id o)

/-- k consecutive transient failures within the retry budget leave the job
uploading with the same acknowledged offset and retry count k higher. -/
theorem runChunks_retryables (id : ℕ) :
    ∀ (k : ℕ) (sys : Sys) (j : Job) (a r : ℕ),
      sys.jobs id = some j → j.state = .uploading → j.session = some ⟨a, r⟩ →
      id ∈ sys.ul.active → r + k ≤ sys.maxRetries →
      runChunks sys id (List.replicate k .retryable) =
        sys.setJob id { j with session := some ⟨a, r + k⟩ } := by
  intro k
  induction k with
  | zero =>
    intro sys j a r hj hs hsess hact hk
    rw [Nat.add_zero, job_set_session_self j ⟨a, r⟩ hsess, setJob_self sys id j hj]
    rfl
  | succ n ih =>
    intro sys j a r hj hs hsess hact hk
    have hr : r < sys.maxRetries := by omega
    rw [List.replicate_succ]
    show runChunks (uploadChunkOp sys id .retryable) id (List.replicate n .retryable) = _
    rw [uploadChunk_retryable_eq sys id j a r hj hs hsess hact hr]
    rw [ih (sys.setJob id { j with session := some ⟨a, r + 1⟩ })
      { j with session := some ⟨a, r + 1⟩ } a (r + 1) (by simp) hs rfl hact
      (by simp only [setJob_maxRetries]; omega)]
    rw [setJob_setJob]
    have harith : r + 1 + n = r + (n + 1) := by omega
    rw [harith]

/-- C3: a job whose chunk upload fails transiently k < maxRetries times and
then succeeds (the remaining bytes fitting in one chunk) reaches uploaded; a
job whose chunk upload fails transiently maxRetries + 1 consecutive times
reaches error with cause UploadFailed and every later chunk outcome for it
is ignored (no further retry happens); a permanent adapter failure fails the
job immediately, with no retry. -/
theorem upload_retry_policy (sys : Sys) (id : ℕ) (j : Job) (a : ℕ)
    (hj : sys.jobs id = some j) (hs : j.state = .uploading)
    (hsess : j.session = some ⟨a, 0⟩) (hact : id ∈ sys.ul.active)
    (hlast : j.selectedBytes ≤ a + sys.chunkSize) :
    (∀ k : ℕ, k < sys.maxRetries →
      ∃ j' : Job,
        (runChunks sys id (List.replicate k .retryable ++ [.ok])).jobs id = some j'
        ∧ j'.state = .uploaded)
    ∧ (∃ j' : Job,
        (runChunks sys id
          (List.replicate (sys.maxRetries + 1) .retryable)).jobs id = some j'
        ∧ j'.state = .error ∧ j'.errorCause = some .UploadFailed)
    ∧ (∀ o : ChunkOutcome,
        uploadChunkOp
            (runChunks sys id (List.replicate (sys.maxRetries + 1) .retryable)) id o
          = runChunks sys id (List.replicate (sys.maxRetries + 1) .retryable))
    ∧ (∃ j' : Job, (uploadChunkOp sys id .permanent).jobs id = some j'
        ∧ j'.state = .error ∧ j'.errorCause = some .UploadFailed) := by
  refine ⟨?_, ?_, ?_, ?_⟩
  · intro k hk
    rw [runChunks_append,
      runChunks_retryables id k sys j a 0 hj hs hsess hact (by omega)]
    show ∃ j', (uploadChunkOp (sys.setJob id { j with session := some ⟨a, 0 + k⟩ })
      id .ok).jobs id = some j' ∧ _
    refine ⟨_, uploadChunk_ok_complete _ id { j with session := some ⟨a, 0 + k⟩ }
      a (0 + k) (by simp) hs rfl hact hlast, rfl⟩
  · rw [List.replicate_succ', runChunks_append,
      runChunks_retryables id sys.maxRetries sys j a 0 hj hs hsess hact (by omega)]
    show ∃ j', (uploadChunkOp (sys.setJob id { j with session := some ⟨a, 0 + sys.maxRetries⟩ })
      id .retryable).jobs id = some j' ∧ _
    refine ⟨_, uploadChunk_retryable_fail _ id { j with session := some ⟨a, 0 + sys.maxRetries⟩ }
      a (0 + sys.maxRetries) (by simp) hs rfl hact
      (by simp only [setJob_maxRetries]; omega), rfl, rfl⟩
  · intro o
    rw [List.replicate_succ', runChunks_append,
      runChunks_retryables id sys.maxRetries sys j a 0 hj hs hsess hact (by omega)]
    show uploadChunkOp (uploadChunkOp (sys.setJob id { j with session := some ⟨a, 0 + sys.maxRetries⟩ })
      id .retryable) id o = _
    exact uploadChunk_no_session _ id _ o
      (uploadChunk_retryable_fail _ id { j with session := some ⟨a, 0 + sys.maxRetries⟩ }
        a (0 + sys.maxRetries) (by simp) hs rfl hact
        (by simp only [setJob_maxRetries]; omega)) rfl
  · exact ⟨_, uploadChunk_permanent_fail sys id j a 0 hj hs hsess hact, rfl, rfl⟩

/-- Witness for C3: one transient failure then a successful chunk on the
uploading job of sysUp (retry limit 2) reaches uploaded. -/
theorem upload_retry_policy_witness :
    ∃ j' : Job,
      (runChunks sysUp 0 (List.replicate 1 .retryable ++ [.ok])).jobs 0 = some j'
      ∧ j'.state = .uploaded :=
  (upload_retry_policy sysUp 0 upJob 0 rfl rfl rfl (by decide) (by decide)).1 1
    (by decide)

end TorrentToDrive
